import Mathlib

/-!
Shallow embedding of the drag-and-drop project manager (src/src/app.ts),
covering the observable project store, the view filter callbacks, the
drag-and-drop handlers, the validation predicate and the form submit path.

Observer callbacks are modelled by abstract registration identifiers (`Nat`);
a notification round is recorded as the trace of `(listener, snapshot)`
pairs produced by `updateListeners`, in the order the `for` loop fires them.
`Math.random().toString()` is an external nondeterministic source, so the
fresh id string is passed to `addProject` as an explicit argument.
-/

/-- The `ProjectStatus` enum of app.ts (lines 14-17). -/
inductive ProjectStatus
  | Active
  | Finished
deriving DecidableEq, Repr

/-- The `Project` class of app.ts (lines 18-26); `people : Int` models the
TS `number` field, which at all call sites holds an integer. -/
structure Project where
  id : String
  title : String
  description : String
  people : Int
  status : ProjectStatus
deriving DecidableEq, Repr

/-- The mutable state of the `ProjectState` singleton (app.ts lines 31-41):
the registered listener callbacks in registration order, and the
authoritative ordered project sequence. -/
structure ProjectState where
  listeners : List Nat
  projects : List Project
deriving DecidableEq, Repr

/-- One observer invocation: which listener fired, and the snapshot
(`this.projects.slice()`) it received. -/
abbrev NotifyEvent := Nat × List Project

/-- `State.addListener` (app.ts lines 34-36): appends the callback. -/
def addListener (l : Nat) (s : ProjectState) : ProjectState :=
  ⟨s.listeners ++ [l], s.projects⟩

/-- The `for (const listenerFn of this.listeners)` loop of
`updateListeners` (app.ts lines 75-79): each registered listener is called
once, in order, with a copy of the current project sequence. -/
def notifyAll (ls : List Nat) (snapshot : List Project) : List NotifyEvent :=
  match ls with
  | [] => []
  | l :: rest => (l, snapshot) :: notifyAll rest snapshot

/-- `ProjectState.addProject` (app.ts lines 55-65): builds a `Project`
with the freshly drawn random id string, `status = Active`, pushes it and
notifies. Returns the new state and the notification trace. -/
def addProject (rand title description : String) (numOfPeople : Int)
    (s : ProjectState) : ProjectState × List NotifyEvent :=
  let NewProject : Project := ⟨rand, title, description, numOfPeople, ProjectStatus.Active⟩
  let newProjects := s.projects ++ [NewProject]
  (⟨s.listeners, newProjects⟩, notifyAll s.listeners newProjects)

/-- Effect on the sequence of `this.projects.find(...)` followed by the
in-place write `project.status = newStatus` (app.ts lines 68-70): the
first project whose id matches gets the new status, the rest are kept. -/
def setFirstStatus (projectId : String) (newStatus : ProjectStatus) :
    List Project → List Project
  | [] => []
  | p :: rest =>
      if p.id = projectId then { p with status := newStatus } :: rest
      else p :: setFirstStatus projectId newStatus rest

/-- `ProjectState.switchProjectStatus` (app.ts lines 67-73): if some
project has the given id, mutate the first match in place and notify;
otherwise do nothing at all. -/
def switchProjectStatus (projectId : String) (newStatus : ProjectStatus)
    (s : ProjectState) : ProjectState × List NotifyEvent :=
  if s.projects.any (fun prj => prj.id = projectId) then
    let newProjects := setFirstStatus projectId newStatus s.projects
    (⟨s.listeners, newProjects⟩, notifyAll s.listeners newProjects)
  else
    (s, [])

/-- A sequence of `addProject` calls, each carrying the id string drawn
from `Math.random().toString()` for that call plus the user arguments. -/
def runAdds : List (String × String × String × Int) → ProjectState → ProjectState
  | [], s => s
  | (r, t, d, n) :: rest, s => runAdds rest (addProject r t d n s).1

theorem notifyAll_eq_map (ls : List Nat) (snap : List Project) :
    notifyAll ls snap = ls.map (fun l => (l, snap)) := by
  induction ls with
  | nil => rfl
  | cons l rest ih => simp [notifyAll, ih]

theorem runAdds_ids (calls : List (String × String × String × Int))
    (s : ProjectState) :
    (runAdds calls s).projects.map (fun p => p.id)
      = s.projects.map (fun p => p.id) ++ calls.map (fun c => c.1) := by
  induction calls generalizing s with
  | nil => simp [runAdds]
  | cons c rest ih =>
      obtain ⟨r, t, d, n⟩ := c
      simp [runAdds, ih, addProject]

/-- The fixed `type` of a `ProjectList` view (app.ts line 235). -/
inductive ViewKind
  | active
  | finished
deriving DecidableEq, Repr

/-- The filter callback registered in `ProjectList.configure` (app.ts
lines 269-275). For the active view it returns
`prj.status === ProjectStatus.Active`; the finished branch evaluates
`prj.status === ProjectStatus.Finished` as a bare expression statement
with no `return`, so the callback returns `undefined` (falsy) there. -/
def relevantFilter (ty : ViewKind) (prj : Project) : Bool :=
  match ty with
  | ViewKind.active => prj.status = ProjectStatus.Active
  | ViewKind.finished => false

/-- `relevantProjects` as assigned in the listener (app.ts line 276). -/
def relevantProjects (ty : ViewKind) (projects : List Project) : List Project :=
  projects.filter (relevantFilter ty)

/-- A drop event's `dataTransfer.getData("text/plain")` payload. -/
structure DropEvent where
  payload : String
deriving DecidableEq, Repr

/-- `ProjectList.dropHandler` (app.ts lines 252-255): the body reads the
payload into the local `prjId` and then ends — it performs no store call
and does not touch the `droppable` class. The result is the store state,
the notification trace, and the view's droppable-affordance flag after
the handler runs. -/
def dropHandler (event : DropEvent) (_ty : ViewKind) (s : ProjectState)
    (droppable : Bool) : ProjectState × List NotifyEvent × Bool :=
  let _prjId := event.payload
  (s, [], droppable)

/-- A TypeScript `string | number` value as carried by `Validatable.value`;
numbers are modelled by `Int`, which covers every value the program
constructs. -/
inductive JSValue
  | str (s : String)
  | num (n : Int)
deriving DecidableEq, Repr

/-- The `Validatable` interface (app.ts lines 85-92). `none` models an
absent (`undefined`) optional field; no call site ever passes `null`,
and `undefined !== null` holds in JS, so each `!== null` guard in
`validate` is satisfied by `none` as well. -/
structure Validatable where
  value : JSValue
  required : Option Bool
  minLength : Option Int
  maxLength : Option Int
  min : Option Int
  max : Option Int
deriving DecidableEq, Repr

/-- `value.toString()` for the values in play. -/
def jsToString : JSValue → String
  | JSValue.str s => s
  | JSValue.num n => toString n

/-- JS whitespace as it occurs in this program's inputs. -/
def wsChar (c : Char) : Bool :=
  c = ' ' || c = '\t' || c = '\n' || c = '\r'

/-- `String.prototype.trim`: strip leading and trailing whitespace. -/
def jsTrim (s : String) : String :=
  String.mk (((s.data.dropWhile wsChar).reverse.dropWhile wsChar).reverse)

/-- JS `a > b` where `b` may be `undefined`: any comparison against
`undefined` is `false` (NaN semantics). -/
def jsGt (a : Int) (b : Option Int) : Bool :=
  match b with
  | some m => a > m
  | none => false

/-- JS `a < b` where `b` may be `undefined`. -/
def jsLt (a : Int) (b : Option Int) : Bool :=
  match b with
  | some m => a < m
  | none => false

/-- The `validate` function (app.ts lines 97-129), branch for branch:
the `required` check, then the `minLength`/`maxLength` branches (entered
whenever the value is a string, since `undefined !== null`), then the
`min`/`max` branches (entered whenever the value is a number), and
finally `return !isValid` — the negation, exactly as written. -/
def validate (validatableInput : Validatable) : Bool :=
  let isValid := true
  let isValid :=
    if validatableInput.required.getD false then
      isValid && ((jsTrim (jsToString validatableInput.value)).length ≠ 0 : Bool)
    else isValid
  let isValid :=
    match validatableInput.value with
    | JSValue.str s => isValid && jsGt (s.length : Int) validatableInput.minLength
    | JSValue.num _ => isValid
  let isValid :=
    match validatableInput.value with
    | JSValue.str s => isValid && jsLt (s.length : Int) validatableInput.maxLength
    | JSValue.num _ => isValid
  let isValid :=
    match validatableInput.value with
    | JSValue.num n => isValid && jsGt n validatableInput.min
    | JSValue.str _ => isValid
  let isValid :=
    match validatableInput.value with
    | JSValue.num n => isValid && jsLt n validatableInput.max
    | JSValue.str _ => isValid
  !isValid

/-- JS unary `+` coercion on the decimal strings this form produces:
`+"" = 0`, otherwise the parsed integer (`0` stands in for `NaN`, which
no claim depends on). -/
def jsToNumber (s : String) : Int :=
  if jsTrim s = "" then 0 else ((jsTrim s).toInt?).getD 0

/-- `ProjectInput.gatherUserInput` (app.ts lines 333-364) as a function of
the three raw input-field strings: builds the three `Validatable` records
exactly as the source does (the people field keeps its *string* value),
returns `none` when the alert fires and `some` tuple otherwise. -/
def gatherUserInput (enteredTitle enteredDescription enteredPeopleAmount : String) :
    Option (String × String × Int) :=
  let titleValidatable : Validatable :=
    ⟨JSValue.str enteredTitle, some true, none, none, none, none⟩
  let descriptionValidatable : Validatable :=
    ⟨JSValue.str enteredDescription, some true, some 5, none, none, none⟩
  let peopleAmountValidatable : Validatable :=
    ⟨JSValue.str enteredPeopleAmount, some true, none, none, some 1, some 5⟩
  if !validate titleValidatable || !validate descriptionValidatable
      || !validate peopleAmountValidatable then
    none
  else
    some (enteredTitle, enteredDescription, jsToNumber enteredPeopleAmount)

/-- `ProjectInput.submitHandler` (app.ts lines 373-383): gather the input;
on an array result call `projectState.addProject` (with the id string the
store will draw passed through), otherwise nothing mutates. The `Bool`
records whether the blocking `alert` fired. -/
def submitHandler (enteredTitle enteredDescription enteredPeopleAmount : String)
    (rand : String) (s : ProjectState) :
    ProjectState × List NotifyEvent × Bool :=
  match gatherUserInput enteredTitle enteredDescription enteredPeopleAmount with
  | none => (s, [], true)
  | some (title, desc, people) =>
      let r := addProject rand title desc people s
      (r.1, r.2, false)

/-!
Reference model for the snapshot-aliasing question: JS arrays are heap
references, so to state that the snapshot handed to a listener is *not*
the store's live array we track arrays in an explicit heap of cells.
`this.projects` is one cell; `this.projects.slice()` allocates a fresh
cell holding a copy of its contents.
-/

/-- A heap of JS arrays of projects; a reference is an index into `cells`. -/
structure Heap where
  cells : List (List Project)
deriving Repr

/-- Dereference a JS array reference. -/
def readRef (h : Heap) (r : Nat) : List Project :=
  h.cells.getD r []

/-- Replace the contents of the array behind `r` (any in-place mutation:
push, splice, reorder, clear — all are contents replacement). -/
def writeRef (h : Heap) (r : Nat) (v : List Project) : Heap :=
  ⟨h.cells.set r v⟩

/-- `arr.slice()`: allocate a fresh array with the same contents. -/
def allocRef (h : Heap) (v : List Project) : Heap × Nat :=
  (⟨h.cells ++ [v]⟩, h.cells.length)

/-- `updateListeners` (app.ts lines 75-79) at the heap level: for each
listener, in order, allocate `this.projects.slice()` and hand the fresh
reference over. `src` is the store's own `projects` reference. Returns
the final heap and the `(listener, snapshotRef)` trace. -/
def updateListenersHeap : List Nat → Heap → Nat → Heap × List (Nat × Nat)
  | [], h, _ => (h, [])
  | l :: rest, h, src =>
      let alloated := allocRef h (readRef h src)
      let recRes := updateListenersHeap rest alloated.1 src
      (recRes.1, (l, alloated.2) :: recRes.2)

theorem updateListenersHeap_refs_fresh (ls : List Nat) (h : Heap) (src : Nat) :
    ∀ ev ∈ (updateListenersHeap ls h src).2, h.cells.length ≤ ev.2 := by
  induction ls generalizing h with
  | nil => intro ev hev; simp [updateListenersHeap] at hev
  | cons l rest ih =>
      intro ev hev
      simp only [updateListenersHeap, List.mem_cons] at hev
      rcases hev with hev | hev
      · subst hev; exact Nat.le_refl _
      · have := ih (allocRef h (readRef h src)).1 ev hev
        simp only [allocRef, List.length_append, List.length_cons,
          List.length_nil] at this
        omega

theorem readRef_writeRef_ne (h : Heap) (r src : Nat) (v : List Project)
    (hne : r ≠ src) : readRef (writeRef h r v) src = readRef h src := by
  simp only [readRef, writeRef, List.getD, List.get?_eq_getElem?]
  rw [List.getElem?_set_ne hne]

theorem setFirstStatus_unchanged (pid : String) (st : ProjectStatus) :
    ∀ l : List Project, (∀ p ∈ l, p.id = pid → p.status = st) →
      setFirstStatus pid st l = l := by
  intro l
  induction l with
  | nil => intro _; rfl
  | cons p rest ih =>
      intro h
      by_cases hid : p.id = pid
      · have hst : p.status = st := h p (List.mem_cons_self p rest) hid
        obtain ⟨pi, pt, pd, pn, ps⟩ := p
        simp only at hst hid
        subst hid hst
        simp [setFirstStatus]
      · have hrest : setFirstStatus pid st rest = rest :=
          ih (fun q hq => h q (List.mem_cons_of_mem p hq))
        simp [setFirstStatus, hid, hrest]

theorem setFirstStatus_append (pid : String) (st : ProjectStatus)
    (l1 l2 : List Project) (p : Project) (hp : p.id = pid)
    (h1 : ∀ q ∈ l1, q.id ≠ pid) :
    setFirstStatus pid st (l1 ++ p :: l2)
      = l1 ++ { p with status := st } :: l2 := by
  induction l1 with
  | nil => simp [setFirstStatus, hp]
  | cons q rest ih =>
      have hq : q.id ≠ pid := h1 q (List.mem_cons_self q rest)
      have hrest := ih (fun r hr => h1 r (List.mem_cons_of_mem q hr))
      simp [setFirstStatus, hq, hrest]

/-- C1: the spec says the drop reaction extracts the payload id, calls
`switchProjectStatus` with the view's own kind, and clears the droppable
affordance. The code's `dropHandler` (app.ts 252-255) only reads the
payload into an unused local: dropping an active project on the finished
view leaves the store untouched, fires no notification, and keeps the
droppable class — while the claimed `switchProjectStatus` call would have
changed the sequence. -/
theorem dropHandler_is_noop :
    dropHandler ⟨"id1"⟩ ViewKind.finished
        ⟨[0], [⟨"id1", "t", "d", 2, ProjectStatus.Active⟩]⟩ true
      = (⟨[0], [⟨"id1", "t", "d", 2, ProjectStatus.Active⟩]⟩, [], true)
    ∧ (switchProjectStatus "id1" ProjectStatus.Finished
        ⟨[0], [⟨"id1", "t", "d", 2, ProjectStatus.Active⟩]⟩).1.projects
      ≠ [⟨"id1", "t", "d", 2, ProjectStatus.Active⟩] := by
  exact ⟨rfl, by decide⟩

/-- C2: the spec says the two views partition the notified sequence by
status. The finished branch of the filter callback (app.ts 273) lacks a
`return`, so the finished view's list is always empty: on a master
sequence holding one Finished project, both filtered lists are empty and
their union misses the project. -/
theorem view_partition_fails :
    relevantProjects ViewKind.finished
        [⟨"a", "t", "d", 1, ProjectStatus.Finished⟩] = []
    ∧ relevantProjects ViewKind.active
        [⟨"a", "t", "d", 1, ProjectStatus.Finished⟩] = []
    ∧ ([⟨"a", "t", "d", 1, ProjectStatus.Finished⟩] : List Project) ≠ [] := by
  exact ⟨rfl, rfl, by decide⟩

/-- C3: calling `switchProjectStatus` with an id matching no project in
the sequence invokes no listener and returns the state unchanged. -/
theorem switchProjectStatus_absent_id_noop (pid : String) (st : ProjectStatus)
    (s : ProjectState) (h : ∀ p ∈ s.projects, p.id ≠ pid) :
    switchProjectStatus pid st s = (s, []) := by
  have hany : s.projects.any (fun prj => prj.id = pid) = false := by
    rw [List.any_eq_false]
    intro p hp
    simp [h p hp]
  simp [switchProjectStatus, hany]

theorem switchProjectStatus_absent_id_noop_witness :
    switchProjectStatus "zzz" ProjectStatus.Finished
        ⟨[0, 1], [⟨"p1", "t", "d", 1, ProjectStatus.Active⟩,
                  ⟨"p2", "u", "e", 2, ProjectStatus.Active⟩]⟩
      = (⟨[0, 1], [⟨"p1", "t", "d", 1, ProjectStatus.Active⟩,
                   ⟨"p2", "u", "e", 2, ProjectStatus.Active⟩]⟩, []) :=
  switchProjectStatus_absent_id_noop "zzz" ProjectStatus.Finished
    ⟨[0, 1], [⟨"p1", "t", "d", 1, ProjectStatus.Active⟩,
              ⟨"p2", "u", "e", 2, ProjectStatus.Active⟩]⟩ (by decide)

/-- C4: every `addProject` call — unconditionally, empty store included —
and every `switchProjectStatus` call whose id is present invoke each
registered listener exactly once, in registration order, each with the
post-mutation sequence: the notification trace equals the listener list
mapped to pairs with the new projects list, and for `addProject` that
list is the old sequence with the new Active project appended. -/
theorem notify_on_mutate (rand t d : String) (n : Int) (pid : String)
    (st : ProjectStatus) (s : ProjectState) :
    ((addProject rand t d n s).2
        = s.listeners.map (fun l => (l, (addProject rand t d n s).1.projects))
      ∧ (addProject rand t d n s).1.projects
        = s.projects ++ [⟨rand, t, d, n, ProjectStatus.Active⟩])
    ∧ ((∃ p ∈ s.projects, p.id = pid) →
        (switchProjectStatus pid st s).2
          = s.listeners.map (fun l => (l, (switchProjectStatus pid st s).1.projects))) := by
  refine ⟨⟨?_, rfl⟩, ?_⟩
  · simp [addProject, notifyAll_eq_map]
  · intro hpresent
    have hany : s.projects.any (fun prj => prj.id = pid) = true := by
      rw [List.any_eq_true]
      obtain ⟨p, hp, hid⟩ := hpresent
      exact ⟨p, hp, by simp [hid]⟩
    simp [switchProjectStatus, hany, notifyAll_eq_map]

theorem notify_on_mutate_witness :
    (((addProject "0.7" "t" "d" 3 ⟨[0, 1], [⟨"p1", "a", "b", 1, ProjectStatus.Active⟩]⟩).2
        = [0, 1].map (fun l => (l,
            (addProject "0.7" "t" "d" 3
              ⟨[0, 1], [⟨"p1", "a", "b", 1, ProjectStatus.Active⟩]⟩).1.projects))
      ∧ (addProject "0.7" "t" "d" 3
            ⟨[0, 1], [⟨"p1", "a", "b", 1, ProjectStatus.Active⟩]⟩).1.projects
        = [⟨"p1", "a", "b", 1, ProjectStatus.Active⟩]
            ++ [⟨"0.7", "t", "d", 3, ProjectStatus.Active⟩])
    ∧ (switchProjectStatus "p1" ProjectStatus.Finished
          ⟨[0, 1], [⟨"p1", "a", "b", 1, ProjectStatus.Active⟩]⟩).2
        = [0, 1].map (fun l => (l,
            (switchProjectStatus "p1" ProjectStatus.Finished
              ⟨[0, 1], [⟨"p1", "a", "b", 1, ProjectStatus.Active⟩]⟩).1.projects))) := by
  have hmain := notify_on_mutate "0.7" "t" "d" 3 "p1" ProjectStatus.Finished
    ⟨[0, 1], [⟨"p1", "a", "b", 1, ProjectStatus.Active⟩]⟩
  exact ⟨hmain.1,
    hmain.2 ⟨⟨"p1", "a", "b", 1, ProjectStatus.Active⟩, by decide, by decide⟩⟩


/-- C5 counterexample: the id is `Math.random().toString()`, an external
draw with no uniqueness guarantee; when two `addProject` calls receive
the same drawn string, the two stored projects share an id, so "pairwise
distinct on all call sequences" fails. -/
theorem addProject_ids_can_collide :
    ¬ (((runAdds [("0.5", "t", "d", 1), ("0.5", "u", "e", 2)]
          ⟨[], []⟩).projects.map (fun p => p.id)).Nodup) := by
  decide

/-- C5 (amended): starting from an empty store, if the strings drawn by
the id generator across the `addProject` calls are pairwise distinct,
then the resulting project ids are pairwise distinct — uniqueness holds
exactly up to the random draws, which the code never deduplicates. -/
theorem addProject_ids_distinct (ls : List Nat)
    (calls : List (String × String × String × Int))
    (h : (calls.map (fun c => c.1)).Nodup) :
    ((runAdds calls ⟨ls, []⟩).projects.map (fun p => p.id)).Nodup := by
  rw [runAdds_ids]
  simpa using h

theorem addProject_ids_distinct_witness :
    ((runAdds [("0.1", "t", "d", 1), ("0.2", "u", "e", 2)]
        ⟨[7], []⟩).projects.map (fun p => p.id)).Nodup :=
  addProject_ids_distinct [7] [("0.1", "t", "d", 1), ("0.2", "u", "e", 2)]
    (by decide)

/-- C6: the spec's validation contract says `validate` is true iff all
present constraints hold. The code computes `isValid` and returns
`!isValid` (app.ts 128), and its `!== null` guards let absent length
bounds poison every string value: a field with value 3, required and
bounded 1..5 — satisfying every constraint — yields `false`, while an
empty required string field yields `true`. -/
theorem validate_violates_contract :
    validate ⟨JSValue.num 3, some true, none, none, some 1, some 5⟩ = false
    ∧ validate ⟨JSValue.str "", some true, none, none, none, none⟩ = true := by
  exact ⟨by decide, by decide⟩

/-- C7: the spec says an invalid submission raises a blocking alert and
never reaches `addProject`. On the empty submission (empty title, empty
description, empty people field — violating required, minLength 5 and
the 1..5 range) `validate` returns true for all three records, so
`submitHandler` skips the alert and appends a project to the store. -/
theorem submitHandler_accepts_invalid :
    submitHandler "" "" "" "0.1" ⟨[], []⟩
      = (⟨[], [⟨"0.1", "", "", 0, ProjectStatus.Active⟩]⟩, [], false) := by
  decide

/-- C8: when some project carries the given id and every project with
that id already has the requested status, `switchProjectStatus` leaves
the sequence (and whole state) value-equal and still notifies each
listener once, in order, with the unchanged sequence. -/
theorem switchProjectStatus_idempotent (pid : String) (st : ProjectStatus)
    (s : ProjectState)
    (hpresent : ∃ p ∈ s.projects, p.id = pid)
    (hsame : ∀ p ∈ s.projects, p.id = pid → p.status = st) :
    (switchProjectStatus pid st s).1 = s
    ∧ (switchProjectStatus pid st s).2
        = s.listeners.map (fun l => (l, s.projects)) := by
  have hany : s.projects.any (fun prj => prj.id = pid) = true := by
    rw [List.any_eq_true]
    obtain ⟨p, hp, hid⟩ := hpresent
    exact ⟨p, hp, by simp [hid]⟩
  have hfix : setFirstStatus pid st s.projects = s.projects :=
    setFirstStatus_unchanged pid st s.projects hsame
  constructor
  · simp [switchProjectStatus, hany, hfix]
  · simp [switchProjectStatus, hany, hfix, notifyAll_eq_map]

theorem switchProjectStatus_idempotent_witness :
    (switchProjectStatus "p1" ProjectStatus.Finished
        ⟨[0], [⟨"p1", "t", "d", 1, ProjectStatus.Finished⟩]⟩).1
      = ⟨[0], [⟨"p1", "t", "d", 1, ProjectStatus.Finished⟩]⟩
    ∧ (switchProjectStatus "p1" ProjectStatus.Finished
        ⟨[0], [⟨"p1", "t", "d", 1, ProjectStatus.Finished⟩]⟩).2
      = [0].map (fun l => (l, [⟨"p1", "t", "d", 1, ProjectStatus.Finished⟩])) :=
  switchProjectStatus_idempotent "p1" ProjectStatus.Finished
    ⟨[0], [⟨"p1", "t", "d", 1, ProjectStatus.Finished⟩]⟩
    ⟨⟨"p1", "t", "d", 1, ProjectStatus.Finished⟩, by decide, by decide⟩
    (by decide)

/-- C9: every snapshot reference handed to a listener is a fresh
allocation, distinct from the store's own `projects` reference, and
overwriting the snapshot's contents (any add/remove/reorder) leaves the
list read through the store's reference unchanged. -/
theorem snapshot_not_live_array (ls : List Nat) (h : Heap) (src : Nat)
    (hsrc : src < h.cells.length) :
    ∀ ev ∈ (updateListenersHeap ls h src).2,
      ev.2 ≠ src
      ∧ ∀ v : List Project,
          readRef (writeRef (updateListenersHeap ls h src).1 ev.2 v) src
            = readRef (updateListenersHeap ls h src).1 src := by
  intro ev hev
  have hfresh := updateListenersHeap_refs_fresh ls h src ev hev
  have hne : ev.2 ≠ src := by omega
  exact ⟨hne, fun v => readRef_writeRef_ne _ _ _ v hne⟩

theorem snapshot_not_live_array_witness :
    (1 : Nat) ≠ 0
    ∧ readRef
        (writeRef (updateListenersHeap [0]
          ⟨[[⟨"p1", "t", "d", 1, ProjectStatus.Active⟩]]⟩ 0).1 1 []) 0
      = readRef (updateListenersHeap [0]
          ⟨[[⟨"p1", "t", "d", 1, ProjectStatus.Active⟩]]⟩ 0).1 0 := by
  have hmain := snapshot_not_live_array [0]
    ⟨[[⟨"p1", "t", "d", 1, ProjectStatus.Active⟩]]⟩ 0 (by decide)
    (0, 1) (by decide)
  exact ⟨hmain.1, hmain.2 []⟩

/-- C10: `find` stops at the first match, so when duplicate ids exist only
the first project in insertion order with the given id gets the new
status; every project after it — matching id or not — is kept as is. -/
theorem switchProjectStatus_first_match_only (pid : String)
    (st : ProjectStatus) (ls : List Nat) (l1 l2 : List Project) (p : Project)
    (hp : p.id = pid) (h1 : ∀ q ∈ l1, q.id ≠ pid) :
    (switchProjectStatus pid st ⟨ls, l1 ++ p :: l2⟩).1.projects
      = l1 ++ { p with status := st } :: l2 := by
  have hany : (l1 ++ p :: l2).any (fun prj => prj.id = pid) = true := by
    rw [List.any_eq_true]
    exact ⟨p, by simp, by simp [hp]⟩
  simp only [switchProjectStatus, hany, if_true]
  exact setFirstStatus_append pid st l1 l2 p hp h1

theorem switchProjectStatus_first_match_only_witness :
    (switchProjectStatus "x" ProjectStatus.Finished
        ⟨[0], [⟨"y", "a", "b", 1, ProjectStatus.Active⟩,
               ⟨"x", "c", "d", 2, ProjectStatus.Active⟩,
               ⟨"x", "e", "f", 3, ProjectStatus.Active⟩]⟩).1.projects
      = [⟨"y", "a", "b", 1, ProjectStatus.Active⟩]
          ++ ⟨"x", "c", "d", 2, ProjectStatus.Finished⟩
              :: [⟨"x", "e", "f", 3, ProjectStatus.Active⟩] :=
  switchProjectStatus_first_match_only "x" ProjectStatus.Finished [0]
    [⟨"y", "a", "b", 1, ProjectStatus.Active⟩]
    [⟨"x", "e", "f", 3, ProjectStatus.Active⟩]
    ⟨"x", "c", "d", 2, ProjectStatus.Active⟩ (by decide) (by decide)
